import Mathlib

/-
Verification development for the exam-preparation backend
(src/backend/openai_service.py, firestore_service.py, main.py).

Python dictionaries are modelled as insertion-ordered association lists
(`List (String × α)`): `dictGet` is `d[k]` / `d.get(k)`, `dictSet` is
`d[k] = v` (replaces in place, keeping the key position, or appends a new
key at the end, exactly like a CPython dict).  Python `int` is `Int`;
`int(x)` on a quotient is truncation toward zero (`Int.tdiv`), `//` and `%`
are floor division and euclidean remainder (`Int.fdiv` / `Int.emod`; they
coincide with Python for the positive divisors used here).  Exact rational
arithmetic stands in for CPython float arithmetic throughout.  Calls to the
external generation service and to `random.choice` are modelled as oracle
parameters; a raised Python exception is modelled by an `Option`-valued
function returning `none`.
-/

set_option maxHeartbeats 1000000

namespace Dcio

/-- Lookup in a Python dict modelled as an ordered association list:
first (and, for dict-built lists, only) binding of the key. -/
def dictGet {α : Type} (l : List (String × α)) (k : String) : Option α :=
  match l with
  | [] => none
  | kv :: rest => if kv.1 = k then some kv.2 else dictGet rest k

/-- Assignment `d[k] = v` on a Python dict: replace the value at an existing
key in place, otherwise append the new binding at the end. -/
def dictSet {α : Type} (l : List (String × α)) (k : String) (v : α) :
    List (String × α) :=
  match l with
  | [] => [(k, v)]
  | kv :: rest => if kv.1 = k then (k, v) :: rest else kv :: dictSet rest k v

/-- Keys of a modelled dict, in insertion order. -/
def dictKeys {α : Type} (l : List (String × α)) : List String :=
  l.map Prod.fst

/-- A genuine CPython dict never holds two bindings of the same key. -/
def nodupKeys {α : Type} (l : List (String × α)) : Prop :=
  (dictKeys l).Nodup

instance {α : Type} (l : List (String × α)) : Decidable (nodupKeys l) := by
  unfold nodupKeys; infer_instance

/-- Python values as stored in the learning profile: numbers (int and float
collapsed to exact rationals), strings, nested dicts and lists. -/
inductive PyVal : Type where
  | num (q : Rat)
  | str (s : String)
  | dict (entries : List (String × PyVal))
  | list (items : List PyVal)

/-- The profile document type: a Python dict of `PyVal`. -/
abbrev Profile : Type := List (String × PyVal)

/-! ### Python string primitives

CPython string methods, re-implemented structurally over character lists
so that every definition evaluates inside the kernel. -/

/-- Python regex `\s` / `str.strip` whitespace over the ASCII range. -/
def isPyWs (c : Char) : Bool :=
  c == ' ' || c == '\t' || c == '\n' || c == '\r' ||
  c == '\x0b' || c == '\x0c'

/-- Python `str.strip()`: whitespace removed from both ends. -/
def pyStrip (s : String) : String :=
  String.mk (((s.data.dropWhile isPyWs).reverse.dropWhile isPyWs).reverse)

/-- Does `pre` occur as a prefix of `cs`? -/
def listStartsWith : List Char → List Char → Bool
  | _, [] => true
  | [], _ :: _ => false
  | c :: cs, p :: ps => c == p && listStartsWith cs ps

/-- Python `s.split(sep)` for a non-empty separator, over character
lists: non-overlapping occurrences, scanned left to right.  The
structurally decreasing `fuel` starts above the list length, which every
step decreases, so the exhaustion branch is unreachable. -/
def pySplitGo (sep : List Char) : Nat → List Char → List Char →
    List (List Char)
  | 0, cs, cur => [cur.reverse ++ cs]
  | fuel + 1, cs, cur =>
    match cs with
    | [] => [cur.reverse]
    | c :: cs2 =>
      if listStartsWith (c :: cs2) sep then
        cur.reverse :: pySplitGo sep fuel (List.drop (sep.length - 1) cs2) []
      else pySplitGo sep fuel cs2 (c :: cur)

/-- Python `s.split(sep)` (non-empty `sep`). -/
def pySplit (sep s : String) : List String :=
  (pySplitGo sep.data (s.data.length + 1) s.data []).map String.mk

/-- Python `s.replace(old, new)` (non-empty `old`): split on `old`, join
with `new`. -/
def pyReplace (s old new : String) : String :=
  String.mk (List.intercalate new.data
    (pySplitGo old.data (s.data.length + 1) s.data []))

/-- Python `s.lower()` over the ASCII range. -/
def pyLower (s : String) : String :=
  String.mk (s.data.map Char.toLower)

/-! ### openai_service.generate_content (lines 62-124)

The ChatCompletion call is an external service; its outcome is an oracle
parameter `svcResult`: `Except.ok text` is a successful call already
projected to `response.choices[0].message.content`, `Except.error msg` is
any exception raised inside the `try` block, whose `str()` is `msg`.
Message assembly (system prompt, optional profile context) only feeds the
external call and is not modelled, since no claim depends on it. -/

/-- `generate_content`: on success return the content stripped; on any
exception return the literal fallback string built from the exception
message (the function never raises). -/
def generateContent (svcResult : Except String String) : String :=
  match svcResult with
  | .ok text => pyStrip text
  | .error msg => "Error generating content: " ++ msg

/-! ### firestore_service.update_user_learning_profile (lines 396-426) -/

/-- Python `old.update(new)` on dicts: one-level, non-recursive key union;
bindings of `new` overwrite in place on conflict and are appended otherwise. -/
def pyDictUpdate (old new : List (String × PyVal)) : List (String × PyVal) :=
  new.foldl (fun acc kv => dictSet acc kv.1 kv.2) old

/-- One iteration of the merge loop (lines 414-420): if both the new value
and the current value are dicts, shallow-merge them in place; otherwise
replace. -/
def profileMergeStep (prof : Profile) (kv : String × PyVal) : Profile :=
  match kv.2, dictGet prof kv.1 with
  | .dict newEntries, some (.dict oldEntries) =>
      dictSet prof kv.1 (.dict (pyDictUpdate oldEntries newEntries))
  | _, _ => dictSet prof kv.1 kv.2

/-- `update_user_learning_profile` without its document-store I/O: apply
the field-level merge for each key of `updates` in iteration order, then
stamp `last_active_date` with the current time `now` (lines 408-426). -/
def updateUserLearningProfile (profile updates : Profile) (now : String) :
    Profile :=
  dictSet (updates.foldl profileMergeStep profile) "last_active_date"
    (.str now)

/-- The merge rule of the spec, per key: an untouched key keeps its old
value, a dict-over-dict update is the one-level key union with the new
entries winning, anything else is replacement. -/
def mergedValue (newVal oldVal : Option PyVal) : Option PyVal :=
  match newVal, oldVal with
  | none, old => old
  | some (.dict newEntries), some (.dict oldEntries) =>
      some (.dict (pyDictUpdate oldEntries newEntries))
  | some v, _ => some v

/-! ### openai_service.generate_daily_lesson, topic selection (lines 563-590) -/

/-- Python `profile.get(key, {})` followed by use as a dict: absent key
yields the empty dict; a present non-dict value makes the subsequent
`.keys()` / `in` raise, modelled as `none`. -/
def pyGetDict (profile : Profile) (key : String) :
    Option (List (String × PyVal)) :=
  match dictGet profile key with
  | none => some []
  | some (.dict entries) => some entries
  | some _ => none

/-- Topic selection of `generate_daily_lesson`: first weakness key at
intermediate difficulty, else first syllabus topic absent from
`progress_map` at beginner difficulty, else the first syllabus topic at
advanced difficulty.  `syllabus_topics[0]` on an empty syllabus raises
(`none`).  (The profile's `strengths` are also read by the source but never
used for the selection.) -/
def selectDailyTopic (userProfile : Profile) (syllabusTopics : List String) :
    Option (String × String) :=
  match pyGetDict userProfile "weaknesses",
        pyGetDict userProfile "progress_map" with
  | some weaknesses, some progressMap =>
    let weakTopics := weaknesses.map Prod.fst
    let untouchedTopics :=
      syllabusTopics.filter (fun t => (dictGet progressMap t).isNone)
    match weakTopics, untouchedTopics, syllabusTopics with
    | w :: _, _, _ => some (w, "intermediate")
    | [], u :: _, _ => some (u, "beginner")
    | [], [], s :: _ => some (s, "advanced")
    | [], [], [] => none
  | _, _ => none

/-! ### main.track_topic_interaction, profile update core (lines 388-411)

The handler stores an interaction log, reads the profile, bumps the
`preferred_formats` counter for the four recognized interaction types with
an UNGUARDED subscript `profile["preferred_formats"]`, adds `time_spent` to
`total_study_time` and stamps `last_active_date`.  The pure profile
transformation is modelled here; a raised `KeyError` / `TypeError` is
`none`. -/

/-- Interaction types whose `preferred_formats` counter is bumped. -/
def interactionFormatTypes : List String :=
  ["clarity", "infographic", "audio", "practice_questions"]

/-- The profile update performed by `track_topic_interaction` once the
profile document is in hand; `timeSpent` is the request's integer
`time_spent`. -/
def trackTopicInteraction (profile : Profile) (interactionType : String)
    (timeSpent : Int) (now : String) : Option Profile :=
  let bumped : Option Profile :=
    if interactionType ∈ interactionFormatTypes then
      match dictGet profile "preferred_formats" with
      | some (.dict pf) =>
          match (dictGet pf interactionType).getD (.num 0) with
          | .num n =>
              some (dictSet profile "preferred_formats"
                (.dict (dictSet pf interactionType (.num (n + 1)))))
          | _ => none
      | _ => none
    else some profile
  match bumped with
  | none => none
  | some p1 =>
    match (dictGet p1 "total_study_time").getD (.num 0) with
    | .num n =>
        some (dictSet
          (dictSet p1 "total_study_time" (.num (n + (timeSpent : Rat))))
          "last_active_date" (.str now))
    | _ => none

/-! ### openai_service.generate_diagnostic_questions (lines 600-763) -/

/-- The recognized diagnostic difficulty levels (line 11). -/
def DIAGNOSTIC_DIFFICULTY_LEVELS : List String := ["easy", "medium", "hard"]

/-- Sum of the values of a modelled dict. -/
def sumValues (l : List (String × Int)) : Int :=
  (l.map Prod.snd).sum

/-- One iteration of the first loop (lines 622-628): an unrecognized
difficulty key is skipped; a recognized one stores
`count = int((percentage / 100) * question_count)` — exact-rational model
of the float quotient, truncated toward zero — and decrements the running
`remaining_questions`. -/
def allocStep (questionCount : Int) (st : List (String × Int) × Int)
    (kv : String × Int) : List (String × Int) × Int :=
  if kv.1 ∈ DIAGNOSTIC_DIFFICULTY_LEVELS then
    let count := Int.tdiv (kv.2 * questionCount) 100
    (dictSet st.1 kv.1 count, st.2 - count)
  else st

/-- Lines 619-628: the recognized per-difficulty counts together with the
final `remaining_questions`, which starts at `question_count`. -/
def allocCounts (dist : List (String × Int)) (questionCount : Int) :
    List (String × Int) × Int :=
  dist.foldl (allocStep questionCount) ([], questionCount)

/-- Reference sum: the truncated per-difficulty counts of the recognized
entries of the distribution. -/
def recognizedDivSum (dist : List (String × Int)) (questionCount : Int) :
    Int :=
  (dist.map (fun kv =>
    if kv.1 ∈ DIAGNOSTIC_DIFFICULTY_LEVELS
    then Int.tdiv (kv.2 * questionCount) 100 else 0)).sum

/-- Reference sum: the recognized percentages of the distribution. -/
def recognizedPercentSum (dist : List (String × Int)) : Int :=
  (dist.map (fun kv =>
    if kv.1 ∈ DIAGNOSTIC_DIFFICULTY_LEVELS then kv.2 else 0)).sum

/-- Lines 618-632: the per-difficulty counts, with a positive leftover
added to the `medium` bucket (created if absent). -/
def perDifficultyCounts (dist : List (String × Int)) (questionCount : Int) :
    List (String × Int) :=
  let st := allocCounts dist questionCount
  if 0 < st.2 then
    dictSet st.1 "medium" ((dictGet st.1 "medium").getD 0 + st.2)
  else st.1

/-- One pass of the per-topic split (lines 638-648) for one difficulty
bucket: every topic receives `base` questions and the first `rem` topics
(in list order) one extra; `i` is the running `enumerate` index. -/
def splitPass (base rem : Int) (difficulty : String) :
    List String → Nat → List (String × List (String × Int)) →
    List (String × List (String × Int))
  | [], _, acc => acc
  | t :: rest, i, acc =>
    let inner := (dictGet acc t).getD []
    let extra : Int := if (i : Int) < rem then 1 else 0
    splitPass base rem difficulty rest (i + 1)
      (dictSet acc t (dictSet inner difficulty (base + extra)))

/-- One outer iteration of lines 638-648, for one `(difficulty, count)`
entry: `base = max(1, count // num_topics)` and `rem = count % num_topics`
(Python floor division and remainder). -/
def topicSplitStep (topics : List String)
    (acc : List (String × List (String × Int))) (kv : String × Int) :
    List (String × List (String × Int)) :=
  splitPass (max 1 (Int.fdiv kv.2 topics.length))
    (Int.emod kv.2 topics.length) kv.1 topics 0 acc

/-- Lines 634-648: `questions_per_topic`, the nested per-topic
per-difficulty quota dict.  The `ZeroDivisionError` raised on an empty
topic list is handled by the caller. -/
def questionsPerTopic (topics : List String)
    (qpd : List (String × Int)) : List (String × List (String × Int)) :=
  qpd.foldl (topicSplitStep topics) []

/-- The quota the split assigns to the topic at 0-based position `i` for a
bucket of size `count` over `numTopics` topics. -/
def topicQuota (count : Int) (numTopics : Nat) (i : Nat) : Int :=
  max 1 (Int.fdiv count numTopics) +
    (if (i : Int) < Int.emod count numTopics then 1 else 0)

/-- A diagnostic question after validation and field synthesis (the fields
the source reads or writes). -/
structure Question where
  id : String
  topicId : String
  text : String
  options : List String
  correctOptionIndex : Int
  explanation : String
  difficulty : String
  tags : List String
  deriving DecidableEq

/-- A question object as parsed from model JSON: any field may be absent. -/
structure RawQuestion where
  id : Option String
  topicId : Option String
  text : Option String
  options : Option (List String)
  correctOptionIndex : Option Int
  explanation : Option String
  difficulty : Option String
  tags : Option (List String)
  deriving DecidableEq

/-- Outcome of one generation call after JSON extraction (lines 694-708):
either a parsed list of question objects or a parse failure that lands in
the `except` arm. -/
inductive GenRes : Type where
  | parsed (questions : List RawQuestion)
  | unparsable

/-- Lines 711-724: a question missing a required field is skipped; the
optional fields are synthesized from topic, difficulty and the current
value of `len(all_questions)`. -/
def validateOne (topic difficulty : String) (poolLen : Nat)
    (q : RawQuestion) : Option Question :=
  match q.text, q.options, q.correctOptionIndex, q.explanation with
  | some t, some opts, some ci, some ex =>
      some { id := q.id.getD (topic ++ "_" ++ difficulty ++ "_" ++ toString poolLen),
             topicId := q.topicId.getD topic,
             text := t, options := opts, correctOptionIndex := ci,
             explanation := ex,
             difficulty := q.difficulty.getD difficulty,
             tags := q.tags.getD [topic] }
  | _, _, _, _ => none

/-- The validation loop over one parsed batch (lines 711-726), appending to
the running pool. -/
def appendParsed (topic difficulty : String) :
    List Question → List RawQuestion → List Question
  | pool, [] => pool
  | pool, q :: rest =>
    match validateOne topic difficulty pool.length q with
    | some v => appendParsed topic difficulty (pool ++ [v]) rest
    | none => appendParsed topic difficulty pool rest

/-- Lines 729-745: the deterministic fallback question appended when JSON
extraction fails for a batch. -/
def fallbackQuestion (topic difficulty : String) (poolLen : Nat) : Question :=
  { id := topic ++ "_" ++ difficulty ++ "_" ++ toString poolLen,
    topicId := topic,
    text := "Sample " ++ difficulty ++ " question about " ++
      pyReplace topic "_" " ",
    options := ["Correct answer for " ++ topic,
      "Wrong answer 1 for " ++ topic,
      "Wrong answer 2 for " ++ topic,
      "Wrong answer 3 for " ++ topic],
    correctOptionIndex := 0,
    explanation := "This is the explanation for the correct answer about " ++
      pyReplace topic "_" " ",
    difficulty := difficulty,
    tags := [topic] }

/-- One inner-loop iteration of the generation loop (lines 653-745); the
state is the accumulated pool plus the index of the next generation call
(feeding the call-sequence oracle `gen`). -/
def genStep (gen : Nat → GenRes) (topic : String)
    (st : List Question × Nat) (entry : String × Int) :
    List Question × Nat :=
  if entry.2 ≤ 0 then st
  else
    match gen st.2 with
    | .parsed raws => (appendParsed topic entry.1 st.1 raws, st.2 + 1)
    | .unparsable =>
        (st.1 ++ [fallbackQuestion topic entry.1 st.1.length], st.2 + 1)

/-- Lines 650-745: iterate topics in list order and, per topic, its
difficulty entries in dict order, skipping non-positive quotas. -/
def generatePool (topics : List String)
    (qpt : List (String × List (String × Int))) (gen : Nat → GenRes) :
    List Question × Nat :=
  topics.foldl (fun st topic =>
    ((dictGet qpt topic).getD []).foldl (genStep gen topic) st) ([], 0)

/-- The produced pool before reconciliation, as a function of the raw
inputs. -/
def diagPool (topics : List String) (dist : List (String × Int))
    (questionCount : Int) (gen : Nat → GenRes) : List Question :=
  (generatePool topics
    (questionsPerTopic topics (perDifficultyCounts dist questionCount))
    gen).1

/-- Python slice `xs[:n]`, including the negative-`n` convention. -/
def pySlice {α : Type} (n : Int) (xs : List α) : List α :=
  if n < 0 then xs.take (xs.length - n.natAbs) else xs.take n.toNat

/-- Lines 756-759: the clone of the chosen question with the relabelled
id `{topicId}_{difficulty}_{len(all_questions)}`. -/
def relabelDuplicate (q : Question) (poolLen : Nat) : Question :=
  { q with id := q.topicId ++ "_" ++ q.difficulty ++ "_" ++ toString poolLen }

/-- The shortfall loop (lines 750-761): while the pool is short of
`questionCount`, duplicate the question chosen by the `random.choice`
oracle `pick` (interpreted modulo the pool length, so every in-range
choice is reachable), relabel and append.  `random.choice` on an empty
pool raises IndexError, modelled as `none`. -/
def fillUp (questionCount : Int) (pick : Nat → Nat) :
    Nat → List Question → Option (List Question)
  | k, pool =>
    if (pool.length : Int) < questionCount then
      match pool.get? (pick k % pool.length) with
      | none => none
      | some q =>
          fillUp questionCount pick (k + 1)
            (pool ++ [relabelDuplicate q pool.length])
    else some pool
  termination_by _ pool => (questionCount - pool.length).toNat
  decreasing_by simp [List.length_append]; omega

/-- `generate_diagnostic_questions` (lines 600-763).  `gen` is the oracle
for the sequence of generation-call outcomes, `pick` the oracle for
`random.choice`.  `none` models an uncaught exception: `count //
len(topics)` on an empty topic list (ZeroDivisionError, reached whenever
the per-difficulty dict is non-empty), or `random.choice` on an empty
pool (IndexError). -/
def generateDiagnosticQuestions (topics : List String)
    (dist : List (String × Int)) (questionCount : Int)
    (gen : Nat → GenRes) (pick : Nat → Nat) : Option (List Question) :=
  let qpd := perDifficultyCounts dist questionCount
  if topics.length = 0 ∧ qpd ≠ [] then none
  else
    let pool := diagPool topics dist questionCount gen
    if questionCount < (pool.length : Int) then
      some (pySlice questionCount pool)
    else if (pool.length : Int) < questionCount then
      fillUp questionCount pick 0 pool
    else some pool

/-! ### openai_service.analyze_diagnostic_results (lines 765-827) -/

/-- A submitted question as read by the aggregation: only `id` and
`topicId` are consulted, both possibly absent (`question.get`). -/
structure DiagQuestion where
  qid : Option String
  topicId : Option String
  deriving DecidableEq

/-- A submitted answer as read by the aggregation: `questionId` possibly
absent, `isCorrect` defaulting to false. -/
structure DiagAnswer where
  questionId : Option String
  isCorrect : Bool
  deriving DecidableEq

/-- Line 791: `question.get("topicId", "unknown")`. -/
def topicOfQuestion (q : DiagQuestion) : String := q.topicId.getD "unknown"

/-- Lines 800-802: the FIRST answer whose `questionId` equals the
question's `id` (`next(...)`) decides correctness via
`answer.get("isCorrect", False)`; no matching answer counts as
incorrect. -/
def questionIsCorrect (answers : List DiagAnswer) (q : DiagQuestion) : Bool :=
  match answers.find? (fun a => a.questionId == q.qid) with
  | some a => a.isCorrect
  | none => false

/-- One topic's entry of `topic_results`. -/
structure TopicTally where
  correct : Nat
  total : Nat
  questions : List DiagQuestion
  deriving DecidableEq

/-- The fresh entry `{"correct": 0, "total": 0, "questions": []}`. -/
def emptyTally : TopicTally := ⟨0, 0, []⟩

/-- One iteration of the grouping loop (lines 790-802). -/
def groupStep (answers : List DiagAnswer)
    (acc : List (String × TopicTally)) (q : DiagQuestion) :
    List (String × TopicTally) :=
  let topic := topicOfQuestion q
  let cur := (dictGet acc topic).getD emptyTally
  let cur2 : TopicTally :=
    { correct := cur.correct + (if questionIsCorrect answers q then 1 else 0),
      total := cur.total + 1,
      questions := cur.questions ++ [q] }
  dictSet acc topic cur2

/-- Lines 787-802: `topic_results`, grouped by topic in first-appearance
order. -/
def topicResults (questions : List DiagQuestion)
    (answers : List DiagAnswer) : List (String × TopicTally) :=
  questions.foldl (groupStep answers) []

/-- Extension of an optional tally by further counts and questions; the
characterization of one topic's entry after a run of the grouping loop. -/
def tallyExt (cur : Option TopicTally) (c tot : Nat)
    (qs : List DiagQuestion) : Option TopicTally :=
  match cur with
  | some tl => some ⟨tl.correct + c, tl.total + tot, tl.questions ++ qs⟩
  | none => if tot = 0 then none else some ⟨c, tot, qs⟩

/-- CPython `round` to the nearest integer with ties to even, evaluated on
the exact rational `num / den` (`den > 0`); exact-rational model of the
float expression `round((correct / total) * 100)`. -/
def pyRound (num den : Nat) : Nat :=
  let q := num / den
  let r := num % den
  if 2 * r < den then q
  else if den < 2 * r then q + 1
  else if q % 2 = 0 then q else q + 1

/-- Lines 804-808: per-topic scores for every topic with a positive
total. -/
def topicScoresOf (results : List (String × TopicTally)) :
    List (String × Nat) :=
  results.foldl (fun acc kv =>
    if 0 < kv.2.total then
      dictSet acc kv.1 (pyRound (100 * kv.2.correct) kv.2.total)
    else acc) []

/-- One iteration of lines 814-818: `score >= 70` appends to strengths,
`elif score <= 40` appends to weaknesses. -/
def classifyStep (acc : List String × List String) (kv : String × Nat) :
    List String × List String :=
  if 70 ≤ kv.2 then (acc.1 ++ [kv.1], acc.2)
  else if kv.2 ≤ 40 then (acc.1, acc.2 ++ [kv.1])
  else acc

/-- Lines 810-818: score-derived strengths and weaknesses, appended in
iteration order. -/
def classifyTopics (scores : List (String × Nat)) :
    List String × List String :=
  scores.foldl classifyStep ([], [])

/-- Lines 820-823: the overall score, 0 when there are no questions. -/
def overallScoreOf (results : List (String × TopicTally)) : Nat :=
  let totalCorrect := (results.map (fun kv => kv.2.correct)).sum
  let totalQuestions := (results.map (fun kv => kv.2.total)).sum
  if 0 < totalQuestions then pyRound (100 * totalCorrect) totalQuestions
  else 0

/-- Python `list(set(xs))`: the distinct elements.  CPython's iteration
order over a set is unspecified, so the model fixes first-occurrence order
and only membership is stated about it. -/
def pySetList (xs : List String) : List String := xs.dedup

/-- The aggregate fields of the dict returned by
`analyze_diagnostic_results` (lines 884-891). -/
structure DiagAnalysis where
  topicScores : List (String × Nat)
  strengths : List String
  weaknesses : List String
  overallScore : Nat

/-- The aggregation of `analyze_diagnostic_results` (lines 765-827).
`learning_style` and `self_rating` only feed the narrative prompt; the
free-text narrative produced by the generation service (lines 829-882) is
not modelled, since no claim concerns it. -/
def analyzeDiagnosticResults (questions : List DiagQuestion)
    (answers : List DiagAnswer) (weakTopics strongTopics : List String) :
    DiagAnalysis :=
  let results := topicResults questions answers
  let scores := topicScoresOf results
  let cls := classifyTopics scores
  { topicScores := scores,
    strengths := pySetList (cls.1 ++ strongTopics),
    weaknesses := pySetList (cls.2 ++ weakTopics),
    overallScore := overallScoreOf results }

/-- Reference counter: how many submitted questions group under topic
`t`. -/
def specTotal (questions : List DiagQuestion) (t : String) : Nat :=
  questions.countP (fun q => topicOfQuestion q == t)

/-- Reference counter: how many questions under `t` the source counts
correct (first matching answer has `isCorrect` true). -/
def specCorrect (questions : List DiagQuestion) (answers : List DiagAnswer)
    (t : String) : Nat :=
  questions.countP (fun q =>
    topicOfQuestion q == t && questionIsCorrect answers q)

/-- The questions grouped under `t`, in submission order. -/
def specQuestions (questions : List DiagQuestion) (t : String) :
    List DiagQuestion :=
  questions.filter (fun q => topicOfQuestion q == t)

/-- The frozen claim C5's reading of correctness: a question counts
correct when SOME answer has a matching `questionId` and `isCorrect`
true.  This differs from the source exactly when several answers share a
`questionId`. -/
def claimCorrect (questions : List DiagQuestion) (answers : List DiagAnswer)
    (t : String) : Nat :=
  questions.countP (fun q => topicOfQuestion q == t &&
    answers.any (fun a => a.questionId == q.qid && a.isCorrect))

/-! ### openai_service.generate_lesson (lines 126-247) -/

/-- Whether the regex pattern of line 205 — a JSON array opening followed
by an object with an `"id"` key — matches at the head of `cs`.  The
pattern has no backtracking: `\s` never overlaps the next required
character. -/
def matchesIdArrayHead (cs : List Char) : Bool :=
  match cs with
  | '[' :: rest =>
    (match rest.dropWhile isPyWs with
     | '{' :: rest2 =>
       (match rest2.dropWhile isPyWs with
        | '"' :: 'i' :: 'd' :: '"' :: ':' :: _ => true
        | _ => false)
     | _ => false)
  | _ => false

/-- `re.search` at line 205: the index of the leftmost match, if any. -/
def findIdArrayFrom : List Char → Nat → Option Nat
  | cs, i =>
    if matchesIdArrayHead cs then some i
    else
      match cs with
      | [] => none
      | _ :: rest => findIdArrayFrom rest (i + 1)

/-- Python `str.rfind` for a single character: index of the last
occurrence. -/
def lastIndexOf (cs : List Char) (c : Char) : Option Nat :=
  match cs with
  | [] => none
  | x :: rest =>
    match lastIndexOf rest c with
    | some j => some (j + 1)
    | none => if x == c then some 0 else none

/-- Lines 193-213: extraction of `mcqs_json` from the raw model output.
`jsonOk` is the oracle for `json.loads` succeeding on a candidate string.
When a fenced json block with closing fence is present, the block is kept
if valid, otherwise the `except` arm assigns "[]".  Otherwise the
array-of-objects heuristic runs, and `mcqs_json` keeps its initial value
"" on every failure path of that branch (no exception is raised there). -/
def extractMcqsJson (content : String) (jsonOk : String → Bool) : String :=
  let parts := pySplit "```json" content
  let fencedTail := parts.getD 1 ""
  if 1 < parts.length ∧ 1 < (pySplit "```" fencedTail).length then
    let block := pyStrip ((pySplit "```" fencedTail).getD 0 "")
    if jsonOk block then block else "[]"
  else
    match findIdArrayFrom content.data 0 with
    | none => ""
    | some i =>
      let potential := content.data.drop i
      match lastIndexOf potential ']' with
      | some e => if 0 < e then String.mk (potential.take (e + 1)) else ""
      | none => ""

/-- Lines 215-218: `content_text` is the text before the first fenced json
block, stripped; it is the raw content unchanged when no fence is
present. -/
def lessonContentText (content : String) : String :=
  let parts := pySplit "```json" content
  if 1 < parts.length then pyStrip (parts.getD 0 "") else content

/-- Lines 220-231: the summary section extracted from the lesson text. -/
def summaryOf (lessonText : String) : String :=
  let parts := pySplit "Summary" lessonText
  if 1 < parts.length then
    let sec := pyStrip (parts.getD 1 "")
    match sec.data.findIdx? (fun c => c == '#') with
    | some e => if 0 < e then pyStrip (String.mk (sec.data.take e)) else sec
    | none => sec
  else ""

/-- The lesson object assembled at lines 234-245. -/
structure Lesson where
  topicId : String
  title : String
  contentText : String
  mcqsJson : String
  summaryText : String
  generatedAt : String
  type : String
  difficultyLevel : String
  estimatedTimeMinutes : Nat
  profileUsed : Bool

/-- `generate_lesson` (lines 126-247) downstream of the generation call:
`lessonContent` is the raw string returned by `generate_content` (success
text or in-band error string), `jsonOk` the `json.loads` oracle, `now` the
generation timestamp. -/
def generateLesson (topic difficultyLevel : String)
    (lessonContent : String) (jsonOk : String → Bool) (now : String)
    (profileUsed : Bool) : Lesson :=
  let text := lessonContentText lessonContent
  { topicId := pyReplace (pyLower topic) " " "_",
    title := topic,
    contentText := text,
    mcqsJson := extractMcqsJson lessonContent jsonOk,
    summaryText := summaryOf text,
    generatedAt := now,
    type := "generated_lesson",
    difficultyLevel := difficultyLevel,
    estimatedTimeMinutes := 15,
    profileUsed := profileUsed }

end Dcio

namespace Dcio

/-! ## Theorems: the association-list dict model -/

theorem dictGet_dictSet_self {α : Type} (l : List (String × α)) (k : String)
    (v : α) : dictGet (dictSet l k v) k = some v := by
  induction l with
  | nil => simp [dictGet, dictSet]
  | cons kv rest ih =>
    by_cases h : kv.1 = k
    · simp [dictGet, dictSet, h]
    · simp [dictGet, dictSet, h, ih]

theorem dictGet_dictSet_ne {α : Type} (l : List (String × α)) (k k2 : String)
    (v : α) (h : k ≠ k2) : dictGet (dictSet l k v) k2 = dictGet l k2 := by
  induction l with
  | nil => simp [dictGet, dictSet, h]
  | cons kv rest ih =>
    by_cases hh : kv.1 = k
    · simp [dictGet, dictSet, hh, h, Ne.symm h]
    · by_cases h2 : kv.1 = k2
      · simp [dictGet, dictSet, hh, h2, Ne.symm h]
      · simp [dictGet, dictSet, hh, h2, ih]

theorem dictSet_of_not_mem {α : Type} (l : List (String × α)) (k : String)
    (v : α) (h : k ∉ dictKeys l) : dictSet l k v = l ++ [(k, v)] := by
  induction l with
  | nil => simp [dictSet]
  | cons kv rest ih =>
    simp only [dictKeys, List.map_cons, List.mem_cons] at h
    push_neg at h
    have hne : ¬kv.1 = k := fun hq => h.1 hq.symm
    simp [dictSet, hne, ih (by simpa [dictKeys] using h.2)]

theorem dictKeys_dictSet {α : Type} (l : List (String × α)) (k : String)
    (v : α) (h : k ∈ dictKeys l) : dictKeys (dictSet l k v) = dictKeys l := by
  induction l with
  | nil => simp [dictKeys] at h
  | cons kv rest ih =>
    by_cases hh : kv.1 = k
    · simp [dictSet, dictKeys, hh]
    · simp only [dictKeys, List.map_cons, List.mem_cons] at h
      rcases h with h | h
      · exact absurd h.symm hh
      · simp [dictSet, dictKeys, hh]
        simpa [dictKeys] using ih (by simpa [dictKeys] using h)

theorem nodupKeys_dictSet {α : Type} (l : List (String × α)) (k : String)
    (v : α) (h : nodupKeys l) : nodupKeys (dictSet l k v) := by
  by_cases hm : k ∈ dictKeys l
  · unfold nodupKeys
    rw [dictKeys_dictSet l k v hm]
    exact h
  · rw [dictSet_of_not_mem l k v hm]
    unfold nodupKeys dictKeys at h ⊢
    simp only [List.map_append, List.map_cons, List.map_nil]
    rw [List.nodup_append]
    refine ⟨h, List.nodup_singleton k, ?_⟩
    intro a ha hb
    simp only [List.mem_singleton] at hb
    subst hb
    exact hm ha

theorem dictGet_eq_none_of_not_mem {α : Type} (l : List (String × α))
    (k : String) (h : k ∉ dictKeys l) : dictGet l k = none := by
  induction l with
  | nil => rfl
  | cons kv rest ih =>
    simp only [dictKeys, List.map_cons, List.mem_cons] at h
    push_neg at h
    have hne : ¬kv.1 = k := fun hq => h.1 hq.symm
    simp [dictGet, hne, ih (by simpa [dictKeys] using h.2)]

theorem dictGet_eq_some_of_mem {α : Type} (l : List (String × α))
    (k : String) (v : α) (hnd : nodupKeys l) (h : (k, v) ∈ l) :
    dictGet l k = some v := by
  induction l with
  | nil => simp at h
  | cons kv rest ih =>
    unfold nodupKeys dictKeys at hnd
    simp only [List.map_cons, List.nodup_cons] at hnd
    rcases List.mem_cons.mp h with h | h
    · simp [dictGet, h.symm]
    · have hne : kv.1 ≠ k := by
        intro he
        exact hnd.1 (he ▸ (List.mem_map.mpr ⟨(k, v), h, rfl⟩))
      simp [dictGet, hne]
      exact ih hnd.2 h

theorem mem_of_dictGet_eq_some {α : Type} (l : List (String × α))
    (k : String) (v : α) (h : dictGet l k = some v) : (k, v) ∈ l := by
  induction l with
  | nil => simp [dictGet] at h
  | cons kv rest ih =>
    by_cases hh : kv.1 = k
    · simp [dictGet, hh] at h
      exact List.mem_cons.mpr (Or.inl (Prod.ext_iff.mpr ⟨hh.symm, h.symm⟩))
    · simp [dictGet, hh] at h
      exact List.mem_cons_of_mem _ (ih h)

/-! ## Claim C8: generation-service faults become an in-band error string -/

/-- C8: for every fault raised by the external generation service,
`generate_content` returns the literal string "Error generating content: "
followed by the fault's message instead of raising an exception, so the
fault reaches callers only as ordinary (unparsable) content, never through
a distinct error channel. -/
theorem generate_content_fault_returns_error_string (msg : String) :
    generateContent (Except.error msg) =
      "Error generating content: " ++ msg :=
  rfl

/-! ## Claim C9: unguarded preferred_formats lookup -/

/-- C9: when the profile in the topic-interaction handler lacks the
"preferred_formats" key (in particular when the profile read degrades to
the empty-mapping fallback), the unguarded subscript
`profile["preferred_formats"]` makes the handler fail for each of the four
counted interaction types instead of bumping a counter: the error branch
is reachable at the public interface. -/
theorem track_topic_interaction_missing_preferred_formats_errors
    (profile : Profile) (interactionType : String) (timeSpent : Int)
    (now : String)
    (hmissing : dictGet profile "preferred_formats" = none)
    (htype : interactionType ∈ interactionFormatTypes) :
    trackTopicInteraction profile interactionType timeSpent now = none := by
  unfold trackTopicInteraction
  simp [htype, hmissing]

/-- Witness for C9 at the empty-mapping fallback profile and a concrete
interaction type. -/
theorem track_topic_interaction_missing_preferred_formats_errors_witness :
    dictGet ([] : Profile) "preferred_formats" = none ∧
    "clarity" ∈ interactionFormatTypes ∧
    trackTopicInteraction [] "clarity" 0 "2025-01-01T00:00:00Z" = none :=
  ⟨rfl, by decide,
    track_topic_interaction_missing_preferred_formats_errors
      [] "clarity" 0 "2025-01-01T00:00:00Z" rfl (by decide)⟩

/-! ## Claim C6: daily-lesson topic selection priority -/

/-- C6: topic selection for the daily lesson is a pure function of profile
and syllabus with fixed priority: a non-empty weaknesses mapping selects
its first key at intermediate difficulty; else the first syllabus topic
absent from progress_map at beginner difficulty; else the first syllabus
topic at advanced difficulty; in particular empty weaknesses with syllabus
t1, t2 and progress only on t1 yields t2 at beginner difficulty. -/
theorem select_daily_topic_priority (profile : Profile)
    (syllabus : List String) (weaknesses progressMap : List (String × PyVal))
    (hw : pyGetDict profile "weaknesses" = some weaknesses)
    (hp : pyGetDict profile "progress_map" = some progressMap) :
    (∀ w v rest, weaknesses = (w, v) :: rest →
      selectDailyTopic profile syllabus = some (w, "intermediate")) ∧
    (∀ u rest, weaknesses = [] →
      syllabus.filter (fun t => (dictGet progressMap t).isNone) = u :: rest →
      selectDailyTopic profile syllabus = some (u, "beginner")) ∧
    (∀ s rest, weaknesses = [] →
      syllabus.filter (fun t => (dictGet progressMap t).isNone) = [] →
      syllabus = s :: rest →
      selectDailyTopic profile syllabus = some (s, "advanced")) ∧
    selectDailyTopic [("weaknesses", .dict []),
        ("progress_map", .dict [("t1", .dict [])])] ["t1", "t2"] =
      some ("t2", "beginner") := by
  refine ⟨?_, ?_, ?_, by decide⟩
  · intro w v rest hweak
    simp [selectDailyTopic, hw, hp, hweak]
  · intro u rest hweak huntouched
    simp [selectDailyTopic, hw, hp, hweak, huntouched]
  · intro s rest hweak huntouched hsyll
    subst hsyll
    simp [selectDailyTopic, hw, hp, hweak, huntouched]

/-- Witness for C6 at a concrete profile with one weakness. -/
theorem select_daily_topic_priority_witness :
    pyGetDict [("weaknesses", PyVal.dict [("algo", PyVal.num 1)])]
        "weaknesses" = some [("algo", PyVal.num 1)] ∧
    selectDailyTopic [("weaknesses", PyVal.dict [("algo", PyVal.num 1)])]
        ["t1"] = some ("algo", "intermediate") :=
  ⟨rfl,
    (select_daily_topic_priority
      [("weaknesses", PyVal.dict [("algo", PyVal.num 1)])] ["t1"]
      [("algo", PyVal.num 1)] [] rfl rfl).1 "algo" (PyVal.num 1) [] rfl⟩

/-! ## Claim C4: the shallow profile merge -/

theorem foldl_profileMergeStep_not_mem (us : List (String × PyVal))
    (p : Profile) (k : String) (h : k ∉ dictKeys us) :
    dictGet (us.foldl profileMergeStep p) k = dictGet p k := by
  induction us generalizing p with
  | nil => rfl
  | cons kv rest ih =>
    simp only [dictKeys, List.map_cons, List.mem_cons] at h
    push_neg at h
    rw [List.foldl_cons, ih (profileMergeStep p kv) (by simpa [dictKeys] using h.2)]
    have hne : kv.1 ≠ k := fun hq => h.1 hq.symm
    unfold profileMergeStep
    match kv.2, dictGet p kv.1 with
    | .dict ne2, some (.dict oe2) => exact dictGet_dictSet_ne _ _ _ _ hne
    | .num q, _ => exact dictGet_dictSet_ne _ _ _ _ hne
    | .str s, _ => exact dictGet_dictSet_ne _ _ _ _ hne
    | .list items, _ => exact dictGet_dictSet_ne _ _ _ _ hne
    | .dict ne2, none => exact dictGet_dictSet_ne _ _ _ _ hne
    | .dict ne2, some (.num q) => exact dictGet_dictSet_ne _ _ _ _ hne
    | .dict ne2, some (.str s) => exact dictGet_dictSet_ne _ _ _ _ hne
    | .dict ne2, some (.list items) => exact dictGet_dictSet_ne _ _ _ _ hne

theorem foldl_profileMergeStep_get (us : List (String × PyVal))
    (p : Profile) (k : String) (hnd : nodupKeys us) :
    dictGet (us.foldl profileMergeStep p) k =
      mergedValue (dictGet us k) (dictGet p k) := by
  induction us generalizing p with
  | nil => rfl
  | cons kv rest ih =>
    unfold nodupKeys dictKeys at hnd
    simp only [List.map_cons, List.nodup_cons] at hnd
    by_cases hk : kv.1 = k
    · subst hk
      have hrest : kv.1 ∉ dictKeys rest := by
        intro hmem
        exact hnd.1 (by simpa [dictKeys] using hmem)
      rw [List.foldl_cons,
        foldl_profileMergeStep_not_mem rest (profileMergeStep p kv) kv.1 hrest]
      have hget : dictGet (kv :: rest) kv.1 = some kv.2 := by
        simp [dictGet]
      rw [hget]
      unfold profileMergeStep
      match hv : kv.2, hp : dictGet p kv.1 with
      | .dict ne2, some (.dict oe2) =>
        simp [mergedValue, dictGet_dictSet_self]
      | .num q, old => cases old <;>
          simp [mergedValue, dictGet_dictSet_self]
      | .str s, old => cases old <;>
          simp [mergedValue, dictGet_dictSet_self]
      | .list items, old => cases old <;>
          simp [mergedValue, dictGet_dictSet_self]
      | .dict ne2, none => simp [mergedValue, dictGet_dictSet_self]
      | .dict ne2, some (.num q) => simp [mergedValue, dictGet_dictSet_self]
      | .dict ne2, some (.str s) => simp [mergedValue, dictGet_dictSet_self]
      | .dict ne2, some (.list items) =>
        simp [mergedValue, dictGet_dictSet_self]
    · have hget : dictGet (kv :: rest) k = dictGet rest k := by
        simp [dictGet, hk]
      rw [List.foldl_cons, ih (profileMergeStep p kv) hnd.2, hget]
      have hstep : dictGet (profileMergeStep p kv) k = dictGet p k := by
        unfold profileMergeStep
        match kv.2, dictGet p kv.1 with
        | .dict ne2, some (.dict oe2) => exact dictGet_dictSet_ne _ _ _ _ hk
        | .num q, _ => exact dictGet_dictSet_ne _ _ _ _ hk
        | .str s, _ => exact dictGet_dictSet_ne _ _ _ _ hk
        | .list items, _ => exact dictGet_dictSet_ne _ _ _ _ hk
        | .dict ne2, none => exact dictGet_dictSet_ne _ _ _ _ hk
        | .dict ne2, some (.num q) => exact dictGet_dictSet_ne _ _ _ _ hk
        | .dict ne2, some (.str s) => exact dictGet_dictSet_ne _ _ _ _ hk
        | .dict ne2, some (.list items) => exact dictGet_dictSet_ne _ _ _ _ hk
      rw [hstep]

/-- C4: `update_profile` replaces each updated key, except that a
mapping-over-mapping update is the one-level shallow key union (new
entries overwrite on conflict, untouched old entries survive); keys not in
the update are preserved; the persisted profile's `last_active_date` is
stamped to the current time; and applying the strengths update topicA 0.9
twice to a profile whose strengths are topicB 0.5 yields the union with
both entries. -/
theorem update_profile_shallow_merge (P U : Profile) (now k : String)
    (hU : nodupKeys U) (hk : k ≠ "last_active_date") :
    dictGet (updateUserLearningProfile P U now) k =
      mergedValue (dictGet U k) (dictGet P k) ∧
    dictGet (updateUserLearningProfile P U now) "last_active_date" =
      some (.str now) ∧
    dictGet (updateUserLearningProfile
        (updateUserLearningProfile
          [("strengths", .dict [("topicB", .num (1/2))])]
          [("strengths", .dict [("topicA", .num (9/10))])] "t1")
        [("strengths", .dict [("topicA", .num (9/10))])] "t2") "strengths" =
      some (.dict [("topicB", .num (1/2)), ("topicA", .num (9/10))]) := by
  refine ⟨?_, ?_, ?_⟩
  · unfold updateUserLearningProfile
    rw [dictGet_dictSet_ne _ _ _ _ (Ne.symm hk)]
    exact foldl_profileMergeStep_get U P k hU
  · exact dictGet_dictSet_self _ _ _
  · rfl

/-- Witness for C4 at the concrete scenario profile and update. -/
theorem update_profile_shallow_merge_witness :
    nodupKeys [("strengths", PyVal.dict [("topicA", PyVal.num (9/10))])] ∧
    "strengths" ≠ "last_active_date" ∧
    dictGet (updateUserLearningProfile
        [("strengths", PyVal.dict [("topicB", PyVal.num (1/2))])]
        [("strengths", PyVal.dict [("topicA", PyVal.num (9/10))])] "t1")
      "strengths" =
      mergedValue
        (dictGet [("strengths", PyVal.dict [("topicA", PyVal.num (9/10))])]
          "strengths")
        (dictGet [("strengths", PyVal.dict [("topicB", PyVal.num (1/2))])]
          "strengths") :=
  ⟨by decide, by decide,
    (update_profile_shallow_merge
      [("strengths", PyVal.dict [("topicB", PyVal.num (1/2))])]
      [("strengths", PyVal.dict [("topicA", PyVal.num (9/10))])]
      "t1" "strengths" (by decide) (by decide)).1⟩

/-! ## Claim C2: the per-difficulty counts sum to the target -/

theorem not_mem_keys_of_dictGet_eq_none {α : Type} (l : List (String × α))
    (k : String) (h : dictGet l k = none) : k ∉ dictKeys l := by
  induction l with
  | nil => simp [dictKeys]
  | cons kv rest ih =>
    by_cases hh : kv.1 = k
    · simp [dictGet, hh] at h
    · simp [dictGet, hh] at h
      simp only [dictKeys, List.map_cons, List.mem_cons]
      push_neg
      exact ⟨fun he => hh he.symm, by simpa [dictKeys] using ih h⟩

theorem sumValues_append (l : List (String × Int)) (k : String) (v : Int) :
    sumValues (l ++ [(k, v)]) = sumValues l + v := by
  simp [sumValues]

theorem sumValues_dictSet_replace (l : List (String × Int)) (k : String)
    (v w : Int) (h : dictGet l k = some w) :
    sumValues (dictSet l k v) = sumValues l - w + v := by
  induction l with
  | nil => simp [dictGet] at h
  | cons kv rest ih =>
    by_cases hh : kv.1 = k
    · simp [dictGet, hh] at h
      simp [dictSet, hh, sumValues, h]
      ring
    · simp [dictGet, hh] at h
      simp only [dictSet, if_neg hh]
      simp [sumValues] at ih ⊢
      rw [ih h]
      ring

theorem allocCounts_foldl (qc : Int) (dist : List (String × Int)) :
    ∀ c0 r0, nodupKeys dist →
    (∀ kv ∈ dist, kv.1 ∉ dictKeys c0) → nodupKeys c0 →
    nodupKeys (dist.foldl (allocStep qc) (c0, r0)).1 ∧
    sumValues (dist.foldl (allocStep qc) (c0, r0)).1 =
      sumValues c0 + recognizedDivSum dist qc ∧
    (dist.foldl (allocStep qc) (c0, r0)).2 =
      r0 - recognizedDivSum dist qc := by
  induction dist with
  | nil =>
    intro c0 r0 _ _ hc0
    simp [recognizedDivSum, hc0]
  | cons kv rest ih =>
    intro c0 r0 hnd hdisj hc0
    unfold nodupKeys dictKeys at hnd
    simp only [List.map_cons, List.nodup_cons] at hnd
    have hkv0 : kv.1 ∉ dictKeys c0 := hdisj kv (List.mem_cons_self kv rest)
    by_cases hrec : kv.1 ∈ DIAGNOSTIC_DIFFICULTY_LEVELS
    · have hstep : allocStep qc (c0, r0) kv =
          (dictSet c0 kv.1 (Int.tdiv (kv.2 * qc) 100),
           r0 - Int.tdiv (kv.2 * qc) 100) := by
        simp [allocStep, hrec]
      rw [List.foldl_cons, hstep]
      have hset : dictSet c0 kv.1 (Int.tdiv (kv.2 * qc) 100) =
          c0 ++ [(kv.1, Int.tdiv (kv.2 * qc) 100)] :=
        dictSet_of_not_mem c0 kv.1 _ hkv0
      have hdisj2 : ∀ kv2 ∈ rest,
          kv2.1 ∉ dictKeys (dictSet c0 kv.1 (Int.tdiv (kv.2 * qc) 100)) := by
        intro kv2 hmem
        rw [hset]
        unfold dictKeys
        simp only [List.map_append, List.map_cons, List.map_nil,
          List.mem_append, List.mem_singleton]
        push_neg
        refine ⟨hdisj kv2 (List.mem_cons_of_mem kv hmem), ?_⟩
        intro he
        exact hnd.1 (he ▸ List.mem_map.mpr ⟨kv2, hmem, rfl⟩)
      have hc02 : nodupKeys (dictSet c0 kv.1 (Int.tdiv (kv.2 * qc) 100)) :=
        nodupKeys_dictSet c0 kv.1 _ hc0
      obtain ⟨h1, h2, h3⟩ := ih _ _ hnd.2 hdisj2 hc02
      refine ⟨h1, ?_, ?_⟩
      · rw [h2, hset, sumValues_append]
        simp [recognizedDivSum, hrec]
        ring
      · rw [h3]
        simp [recognizedDivSum, hrec]
        ring
    · have hstep : allocStep qc (c0, r0) kv = (c0, r0) := by
        simp [allocStep, hrec]
      rw [List.foldl_cons, hstep]
      obtain ⟨h1, h2, h3⟩ :=
        ih c0 r0 hnd.2 (fun kv2 hm => hdisj kv2 (List.mem_cons_of_mem kv hm))
          hc0
      refine ⟨h1, ?_, ?_⟩
      · rw [h2]
        simp [recognizedDivSum, hrec]
      · rw [h3]
        simp [recognizedDivSum, hrec]

theorem recognizedPercentSum_nonneg (dist : List (String × Int))
    (hnn : ∀ kv ∈ dist, 0 ≤ kv.2) : 0 ≤ recognizedPercentSum dist := by
  induction dist with
  | nil => simp [recognizedPercentSum]
  | cons kv rest ih =>
    have hr := ih (fun kv2 hm => hnn kv2 (List.mem_cons_of_mem kv hm))
    have hk := hnn kv (List.mem_cons_self kv rest)
    by_cases hrec : kv.1 ∈ DIAGNOSTIC_DIFFICULTY_LEVELS <;>
      simp [recognizedPercentSum, hrec] at hr ⊢ <;> omega

theorem recognizedPercentSum_le_sumValues (dist : List (String × Int))
    (hnn : ∀ kv ∈ dist, 0 ≤ kv.2) :
    recognizedPercentSum dist ≤ sumValues dist := by
  induction dist with
  | nil => simp [recognizedPercentSum, sumValues]
  | cons kv rest ih =>
    have hr := ih (fun kv2 hm => hnn kv2 (List.mem_cons_of_mem kv hm))
    have hk := hnn kv (List.mem_cons_self kv rest)
    by_cases hrec : kv.1 ∈ DIAGNOSTIC_DIFFICULTY_LEVELS <;>
      simp [recognizedPercentSum, sumValues, hrec] at hr ⊢ <;> omega

theorem recognizedDivSum_cons (kv : String × Int)
    (rest : List (String × Int)) (qc : Int) :
    recognizedDivSum (kv :: rest) qc =
      (if kv.1 ∈ DIAGNOSTIC_DIFFICULTY_LEVELS
       then Int.tdiv (kv.2 * qc) 100 else 0) + recognizedDivSum rest qc := by
  simp [recognizedDivSum]

theorem recognizedPercentSum_cons (kv : String × Int)
    (rest : List (String × Int)) :
    recognizedPercentSum (kv :: rest) =
      (if kv.1 ∈ DIAGNOSTIC_DIFFICULTY_LEVELS then kv.2 else 0) +
      recognizedPercentSum rest := by
  simp [recognizedPercentSum]

theorem recognizedDivSum_le (dist : List (String × Int)) (qc : Int)
    (hqc : 0 ≤ qc) (hnn : ∀ kv ∈ dist, 0 ≤ kv.2) :
    recognizedDivSum dist qc ≤ (recognizedPercentSum dist * qc) / 100 := by
  induction dist with
  | nil => simp [recognizedDivSum, recognizedPercentSum]
  | cons kv rest ih =>
    have hr := ih (fun kv2 hm => hnn kv2 (List.mem_cons_of_mem kv hm))
    have hk := hnn kv (List.mem_cons_self kv rest)
    have hps := recognizedPercentSum_nonneg rest
      (fun kv2 hm => hnn kv2 (List.mem_cons_of_mem kv hm))
    rw [recognizedDivSum_cons, recognizedPercentSum_cons]
    by_cases hrec : kv.1 ∈ DIAGNOSTIC_DIFFICULTY_LEVELS
    · rw [if_pos hrec, if_pos hrec]
      have htd : Int.tdiv (kv.2 * qc) 100 = (kv.2 * qc) / 100 :=
        Int.tdiv_eq_ediv (mul_nonneg hk hqc) (by norm_num)
      have hmul : (kv.2 + recognizedPercentSum rest) * qc =
          kv.2 * qc + recognizedPercentSum rest * qc := add_mul _ _ _
      rw [htd, hmul]
      have h1 : 0 ≤ kv.2 * qc := mul_nonneg hk hqc
      have h2 : 0 ≤ recognizedPercentSum rest * qc := mul_nonneg hps hqc
      omega
    · rw [if_neg hrec, if_neg hrec]
      simpa using hr

/-- C2: for every difficulty distribution with non-negative percentages
summing to 100 and every target `question_count = N ≥ 0`, after computing
the truncated per-difficulty counts (ignoring unrecognized keys) and
adding the leftover to the medium bucket (created if absent), the
per-difficulty counts sum to exactly N. -/
theorem diagnostic_per_difficulty_counts_sum (dist : List (String × Int))
    (qc : Int) (hqc : 0 ≤ qc) (hnn : ∀ kv ∈ dist, 0 ≤ kv.2)
    (hnd : nodupKeys dist) (hsum : sumValues dist = 100) :
    sumValues (perDifficultyCounts dist qc) = qc := by
  obtain ⟨hndc, hsumc, hrem⟩ :=
    allocCounts_foldl qc dist [] qc hnd (by simp [dictKeys]) (by simp [nodupKeys, dictKeys])
  have hS : recognizedDivSum dist qc ≤ qc := by
    have h1 := recognizedDivSum_le dist qc hqc hnn
    have h2 := recognizedPercentSum_le_sumValues dist hnn
    have h3 : recognizedPercentSum dist ≤ 100 := by omega
    have h4 : recognizedPercentSum dist * qc ≤ 100 * qc :=
      mul_le_mul_of_nonneg_right h3 hqc
    have h5 : (recognizedPercentSum dist * qc) / 100 ≤ (100 * qc) / 100 := by
      omega
    omega
  unfold perDifficultyCounts
  rw [show allocCounts dist qc = dist.foldl (allocStep qc) ([], qc) from rfl]
  have h0 : sumValues ([] : List (String × Int)) = 0 := rfl
  by_cases hpos : 0 < (dist.foldl (allocStep qc) ([], qc)).2
  · rw [if_pos hpos]
    match hmed : dictGet (dist.foldl (allocStep qc) ([], qc)).1 "medium" with
    | none =>
      rw [dictSet_of_not_mem _ _ _
        (not_mem_keys_of_dictGet_eq_none _ _ hmed), sumValues_append]
      rw [hsumc, hrem]
      simp only [Option.getD_none]
      omega
    | some w =>
      rw [sumValues_dictSet_replace _ _ _ w hmed]
      rw [hsumc, hrem]
      simp only [Option.getD_some]
      omega
  · rw [if_neg hpos]
    rw [hrem] at hpos
    have heq : recognizedDivSum dist qc = qc := by omega
    rw [hsumc, heq]
    omega

/-- Witness for C2 at the canonical 30/50/20 distribution and N = 10. -/
theorem diagnostic_per_difficulty_counts_sum_witness :
    (0 : Int) ≤ 10 ∧
    nodupKeys [("easy", (30 : Int)), ("medium", 50), ("hard", 20)] ∧
    sumValues [("easy", (30 : Int)), ("medium", 50), ("hard", 20)] = 100 ∧
    sumValues (perDifficultyCounts
      [("easy", (30 : Int)), ("medium", 50), ("hard", 20)] 10) = 10 :=
  ⟨by norm_num, by decide, by decide,
    diagnostic_per_difficulty_counts_sum
      [("easy", (30 : Int)), ("medium", 50), ("hard", 20)] 10
      (by norm_num) (by decide) (by decide) (by decide)⟩

/-! ## Claim C3: the per-topic split -/

theorem splitPass_get_not_mem (base rem : Int) (d : String)
    (ts : List String) (t : String) (ht : t ∉ ts) :
    ∀ i acc, dictGet (splitPass base rem d ts i acc) t = dictGet acc t := by
  induction ts with
  | nil => intro i acc; rfl
  | cons t2 rest ih =>
    intro i acc
    simp only [List.mem_cons] at ht
    push_neg at ht
    simp only [splitPass]
    rw [ih ht.2]
    exact dictGet_dictSet_ne _ _ _ _ (fun he => ht.1 he.symm)

theorem splitPass_get (base rem : Int) (d : String) (ts : List String)
    (hnd : ts.Nodup) : ∀ (j : Nat) (hj : j < ts.length) (i : Nat)
      (acc : List (String × List (String × Int))),
    dictGet (splitPass base rem d ts i acc) (ts.get ⟨j, hj⟩) =
      some (dictSet ((dictGet acc (ts.get ⟨j, hj⟩)).getD []) d
        (base + (if ((i + j : Nat) : Int) < rem then 1 else 0))) := by
  induction ts with
  | nil => intro j hj; simp at hj
  | cons t rest ih =>
    have hnotmem : t ∉ rest := (List.nodup_cons.mp hnd).1
    intro j hj i acc
    cases j with
    | zero =>
      simp only [List.get, splitPass]
      rw [splitPass_get_not_mem base rem d rest t hnotmem]
      rw [dictGet_dictSet_self]
      norm_num
    | succ j2 =>
      simp only [List.get, splitPass]
      rw [ih (List.nodup_cons.mp hnd).2 j2 (by simpa using hj) (i + 1)]
      have hkey : t ≠ rest.get ⟨j2, by simpa using hj⟩ := by
        intro he
        exact hnotmem (he ▸ rest.get_mem _ _)
      rw [dictGet_dictSet_ne _ _ _ _ hkey]
      have harith : i + 1 + j2 = i + (j2 + 1) := by omega
      rw [harith]

theorem questionsPerTopic_fold_inner (topics : List String)
    (hnd : topics.Nodup) (j : Nat) (hj : j < topics.length)
    (qpd : List (String × Int)) :
    ∀ (acc : List (String × List (String × Int))),
    (dictGet (qpd.foldl (topicSplitStep topics) acc)
        (topics.get ⟨j, hj⟩)).getD [] =
      qpd.foldl
        (fun inn kv => dictSet inn kv.1 (topicQuota kv.2 topics.length j))
        ((dictGet acc (topics.get ⟨j, hj⟩)).getD []) := by
  induction qpd with
  | nil => intro acc; rfl
  | cons p ps ih =>
    intro acc
    rw [List.foldl_cons, List.foldl_cons, ih]
    have hstep : dictGet (topicSplitStep topics acc p) (topics.get ⟨j, hj⟩) =
        some (dictSet ((dictGet acc (topics.get ⟨j, hj⟩)).getD []) p.1
          (max 1 (Int.fdiv p.2 topics.length) +
            (if ((0 + j : Nat) : Int) < Int.emod p.2 topics.length
             then 1 else 0))) :=
      splitPass_get _ _ _ topics hnd j hj 0 acc
    rw [hstep]
    simp only [Option.getD_some, Nat.zero_add]
    rfl

theorem questionsPerTopic_fold_isSome (topics : List String)
    (hnd : topics.Nodup) (j : Nat) (hj : j < topics.length) :
    ∀ (qpd : List (String × Int))
      (acc : List (String × List (String × Int))), qpd ≠ [] →
    (dictGet (qpd.foldl (topicSplitStep topics) acc)
      (topics.get ⟨j, hj⟩)).isSome := by
  intro qpd
  induction qpd with
  | nil => intro acc h; exact absurd rfl h
  | cons p ps ih =>
    intro acc _
    cases hps : ps with
    | nil =>
      simp only [List.foldl_cons, hps, List.foldl_nil]
      rw [show topicSplitStep topics acc p =
        splitPass (max 1 (Int.fdiv p.2 topics.length))
          (Int.emod p.2 topics.length) p.1 topics 0 acc from rfl]
      rw [splitPass_get _ _ _ topics hnd j hj 0 acc]
      rfl
    | cons p2 ps2 =>
      rw [List.foldl_cons, ← hps]
      exact ih (topicSplitStep topics acc p) (by simp [hps])

theorem innerFold_get_not_mem (f : Int → Int) (l : List (String × Int))
    (d : String) (hd : d ∉ dictKeys l) :
    ∀ inn, dictGet
      (l.foldl (fun inn kv => dictSet inn kv.1 (f kv.2)) inn) d =
      dictGet inn d := by
  induction l with
  | nil => intro inn; rfl
  | cons kv rest ih =>
    intro inn
    simp only [dictKeys, List.map_cons, List.mem_cons] at hd
    push_neg at hd
    rw [List.foldl_cons, ih (by simpa [dictKeys] using hd.2)]
    exact dictGet_dictSet_ne _ _ _ _ (fun he => hd.1 he.symm)

theorem innerFold_get (f : Int → Int) (l : List (String × Int))
    (d : String) (c : Int) (hnd : nodupKeys l) (hmem : (d, c) ∈ l) :
    ∀ inn, dictGet
      (l.foldl (fun inn kv => dictSet inn kv.1 (f kv.2)) inn) d =
      some (f c) := by
  induction l with
  | nil => simp at hmem
  | cons kv rest ih =>
    intro inn
    unfold nodupKeys dictKeys at hnd
    simp only [List.map_cons, List.nodup_cons] at hnd
    rcases List.mem_cons.mp hmem with heq | hmem2
    · have hd : d ∉ dictKeys rest := by
        intro hk
        rw [← heq] at hnd
        exact hnd.1 (by simpa [dictKeys] using hk)
      rw [List.foldl_cons, innerFold_get_not_mem f rest d hd]
      rw [← heq]
      exact dictGet_dictSet_self _ _ _
    · have hne : kv.1 ≠ d := by
        intro he
        exact hnd.1 (he ▸ List.mem_map.mpr ⟨(d, c), hmem2, rfl⟩)
      rw [List.foldl_cons]
      exact ih hnd.2 hmem2 _

/-- C3: for every non-empty duplicate-free topic list and every
per-difficulty bucket entry `(d, count)` of the per-difficulty dict
(including `count = 0`), the split assigns the topic at 0-based position
`i` the quota `max(1, count // num_topics) + (1 if i < count % num_topics
else 0)` for difficulty `d`, and every such quota is at least 1, so the
intermediate total may exceed `count` (accepted over-allocation). -/
theorem diagnostic_per_topic_quota (topics : List String)
    (qpd : List (String × Int)) (d : String) (c : Int) (i : Nat)
    (hi : i < topics.length) (hndT : topics.Nodup) (hndQ : nodupKeys qpd)
    (hmem : (d, c) ∈ qpd) :
    (dictGet (questionsPerTopic topics qpd) (topics.get ⟨i, hi⟩)).bind
        (fun inner => dictGet inner d) =
      some (topicQuota c topics.length i) ∧
    topicQuota c topics.length i =
      max 1 (Int.fdiv c topics.length) +
        (if (i : Int) < Int.emod c topics.length then 1 else 0) ∧
    1 ≤ topicQuota c topics.length i := by
  have hq1 : 1 ≤ topicQuota c topics.length i := by
    unfold topicQuota
    have h1 : (1 : Int) ≤ max 1 (Int.fdiv c topics.length) := le_max_left _ _
    split <;> omega
  refine ⟨?_, rfl, hq1⟩
  have hne : qpd ≠ [] := by
    intro he
    rw [he] at hmem
    simp at hmem
  have hsome := questionsPerTopic_fold_isSome topics hndT i hi qpd [] hne
  obtain ⟨inner, hinner⟩ := Option.isSome_iff_exists.mp hsome
  unfold questionsPerTopic
  rw [hinner, Option.some_bind]
  have hval := questionsPerTopic_fold_inner topics hndT i hi qpd []
  rw [hinner] at hval
  simp only [Option.getD_some] at hval
  rw [hval]
  exact innerFold_get (fun c2 => topicQuota c2 topics.length i) qpd d c hndQ
    hmem _

/-! ## Claim C7: lesson extraction fallbacks -/

/-- C7 (amended): raw generation output with no fenced json block and no
array-of-objects-with-id start yields `mcqs_json = ""` — the
initialization value, NOT "[]" — and `content_text` equal to the raw
output unchanged (hence non-empty exactly when the raw output is).  The
"[]" fallback is produced only when a fenced json block is present but
fails validation. -/
theorem generate_lesson_no_fence_fallback (topic difficultyLevel : String)
    (content : String) (jsonOk : String → Bool) (now : String)
    (profileUsed : Bool)
    (hnofence : (pySplit "```json" content).length = 1)
    (hnomatch : findIdArrayFrom content.data 0 = none) :
    (generateLesson topic difficultyLevel content jsonOk now
      profileUsed).mcqsJson = "" ∧
    (generateLesson topic difficultyLevel content jsonOk now
      profileUsed).contentText = content := by
  constructor
  · show extractMcqsJson content jsonOk = ""
    have hcond : ¬(1 < (pySplit "```json" content).length ∧
        1 < (pySplit "```" ((pySplit "```json" content).getD 1 "")).length) := by
      rw [hnofence]
      simp
    simp only [extractMcqsJson]
    rw [if_neg hcond, hnomatch]
  · show lessonContentText content = content
    simp only [lessonContentText]
    rw [if_neg (by rw [hnofence]; simp)]

/-- Witness for the amended C7 at the concrete garbage output "hello". -/
theorem generate_lesson_no_fence_fallback_witness :
    (pySplit "```json" "hello").length = 1 ∧
    findIdArrayFrom "hello".data 0 = none ∧
    (generateLesson "Topic" "intermediate" "hello" (fun _ => false)
      "2025-01-01T00:00:00Z" false).mcqsJson = "" ∧
    (generateLesson "Topic" "intermediate" "hello" (fun _ => false)
      "2025-01-01T00:00:00Z" false).contentText = "hello" :=
  ⟨by decide, by decide,
    generate_lesson_no_fence_fallback "Topic" "intermediate" "hello"
      (fun _ => false) "2025-01-01T00:00:00Z" false (by decide) (by decide)⟩

/-- Counterexample to C7 as frozen: the raw output "hello" contains no
code fence and no parseable JSON, yet the returned lesson has
`mcqs_json = ""`, not the claimed `"[]"` (the `except` arm that assigns
"[]" is reachable only from the fenced-block branch). -/
theorem generate_lesson_plain_garbage_counterexample :
    (generateLesson "Topic" "intermediate" "hello" (fun _ => false)
      "2025-01-01T00:00:00Z" false).mcqsJson = "" ∧
    (generateLesson "Topic" "intermediate" "hello" (fun _ => false)
      "2025-01-01T00:00:00Z" false).mcqsJson ≠ "[]" ∧
    (generateLesson "Topic" "intermediate" "hello" (fun _ => false)
      "2025-01-01T00:00:00Z" false).contentText = "hello" :=
  ⟨by decide, by decide, by decide⟩

/-! ## Claims C1 and C10: reconciliation length and totality -/

theorem fillUp_some_length (qc : Int) (pick : Nat → Nat) :
    ∀ (n k : Nat) (pool : List Question), (qc - pool.length).toNat = n →
      pool ≠ [] → (pool.length : Int) ≤ qc →
      ∃ qs, fillUp qc pick k pool = some qs ∧ (qs.length : Int) = qc := by
  intro n
  induction n using Nat.strong_induction_on with
  | _ n ih =>
    intro k pool hn hne hle
    rw [fillUp]
    by_cases hlt : (pool.length : Int) < qc
    · rw [if_pos hlt]
      have hpos : 0 < pool.length := List.length_pos.mpr hne
      have hidx : pick k % pool.length < pool.length := Nat.mod_lt _ hpos
      rw [List.get?_eq_get hidx]
      have hrec := ih ((qc - (pool.length + 1)).toNat) (by omega) (k + 1)
        (pool ++ [relabelDuplicate (pool.get ⟨pick k % pool.length, hidx⟩)
          pool.length])
        (by simp [List.length_append]) (by simp)
        (by simp [List.length_append]; omega)
      exact hrec
    · rw [if_neg hlt]
      exact ⟨pool, rfl, by omega⟩

/-- Shared helper: whenever the produced pool is non-empty and the target
is at least 1, reconciliation succeeds and returns exactly the target
number of questions. -/
theorem generateDiagnostic_some_of_pool_nonempty (topics : List String)
    (dist : List (String × Int)) (qc : Int) (gen : Nat → GenRes)
    (pick : Nat → Nat) (hqc : 1 ≤ qc)
    (hpool : diagPool topics dist qc gen ≠ []) :
    ∃ qs, generateDiagnosticQuestions topics dist qc gen pick = some qs ∧
      (qs.length : Int) = qc := by
  have htopics : topics.length ≠ 0 := by
    intro he
    apply hpool
    rw [List.length_eq_zero.mp he]
    rfl
  unfold generateDiagnosticQuestions
  rw [if_neg (fun hc => htopics hc.1)]
  by_cases h1 : qc < ((diagPool topics dist qc gen).length : Int)
  · rw [if_pos h1]
    refine ⟨_, rfl, ?_⟩
    unfold pySlice
    rw [if_neg (by omega)]
    simp only [List.length_take]
    omega
  · rw [if_neg h1]
    by_cases h2 : ((diagPool topics dist qc gen).length : Int) < qc
    · rw [if_pos h2]
      exact fillUp_some_length qc pick _ 0 _ rfl hpool (by omega)
    · rw [if_neg h2]
      exact ⟨_, rfl, by omega⟩

theorem dictSet_ne_nil {α : Type} (l : List (String × α)) (k : String)
    (v : α) : dictSet l k v ≠ [] := by
  cases l with
  | nil => simp [dictSet]
  | cons kv rest =>
    unfold dictSet
    split <;> simp

theorem allocFold_fst_ne_nil (qc : Int) (dist : List (String × Int)) :
    ∀ (st : List (String × Int) × Int),
      st.1 ≠ [] → (dist.foldl (allocStep qc) st).1 ≠ [] := by
  induction dist with
  | nil => intro st h; exact h
  | cons kv rest ih =>
    intro st h
    rw [List.foldl_cons]
    apply ih
    unfold allocStep
    by_cases hrec : kv.1 ∈ DIAGNOSTIC_DIFFICULTY_LEVELS
    · simp only [if_pos hrec]
      exact dictSet_ne_nil _ _ _
    · simp only [if_neg hrec]
      exact h

theorem allocFold_snd_of_fst_nil (qc : Int) (dist : List (String × Int)) :
    ∀ (st : List (String × Int) × Int),
      (dist.foldl (allocStep qc) st).1 = [] →
      (dist.foldl (allocStep qc) st).2 = st.2 := by
  induction dist with
  | nil => intro st _; rfl
  | cons kv rest ih =>
    intro st hnil
    rw [List.foldl_cons] at hnil ⊢
    by_cases hrec : kv.1 ∈ DIAGNOSTIC_DIFFICULTY_LEVELS
    · exfalso
      apply allocFold_fst_ne_nil qc rest (allocStep qc st kv) _ hnil
      unfold allocStep
      simp only [if_pos hrec]
      exact dictSet_ne_nil _ _ _
    · have hstep : allocStep qc st kv = st := by
        unfold allocStep
        simp [hrec]
      rw [hstep] at hnil ⊢
      exact ih st hnil

theorem perDifficultyCounts_ne_nil (dist : List (String × Int)) (qc : Int)
    (hqc : 1 ≤ qc) : perDifficultyCounts dist qc ≠ [] := by
  unfold perDifficultyCounts
  by_cases hpos : 0 < (allocCounts dist qc).2
  · simp only [if_pos hpos]
    exact dictSet_ne_nil _ _ _
  · simp only [if_neg hpos]
    intro hnil
    have h2 := allocFold_snd_of_fst_nil qc dist ([], qc) hnil
    unfold allocCounts at hpos
    omega

/-- C1 (amended): for every topic list, difficulty distribution and
`question_count ≥ 1`, PROVIDED at least one question is produced before
reconciliation, the truncate-or-duplicate-with-relabel reconciliation
returns a list of length exactly `question_count`.  (As frozen —
"regardless of how many questions each generation call yields" — the
claim is false: when every call parses to an empty array the pool is
empty and `random.choice` raises; see the counterexample.) -/
theorem diagnostic_allocator_returns_exact_count (topics : List String)
    (dist : List (String × Int)) (qc : Int) (gen : Nat → GenRes)
    (pick : Nat → Nat) (hqc : 1 ≤ qc)
    (hpool : diagPool topics dist qc gen ≠ []) :
    ∃ qs, generateDiagnosticQuestions topics dist qc gen pick = some qs ∧
      (qs.length : Int) = qc :=
  generateDiagnostic_some_of_pool_nonempty topics dist qc gen pick hqc hpool

/-- Witness for the amended C1: one topic whose single generation call is
unparsable, so the pool holds the fallback question. -/
theorem diagnostic_allocator_returns_exact_count_witness :
    (1 : Int) ≤ 1 ∧
    diagPool ["t"] [("medium", 100)] 1 (fun _ => GenRes.unparsable) ≠ [] ∧
    ∃ qs, generateDiagnosticQuestions ["t"] [("medium", 100)] 1
        (fun _ => GenRes.unparsable) (fun _ => 0) = some qs ∧
      (qs.length : Int) = 1 :=
  ⟨by norm_num, by decide,
    diagnostic_allocator_returns_exact_count ["t"] [("medium", 100)] 1
      (fun _ => GenRes.unparsable) (fun _ => 0) (by norm_num) (by decide)⟩

/-- Counterexample to C1 as frozen: one topic, a pure-medium distribution,
`question_count = 1`, and every generation call parsing successfully to an
empty array.  The produced pool is empty, `random.choice` raises, and no
list at all is returned — in particular no list of length 1. -/
theorem diagnostic_allocator_empty_yield_counterexample :
    generateDiagnosticQuestions ["t"] [("medium", 100)] 1
      (fun _ => GenRes.parsed []) (fun _ => 0) = none := by
  have hstep : generateDiagnosticQuestions ["t"] [("medium", 100)] 1
      (fun _ => GenRes.parsed []) (fun _ => 0) =
      fillUp 1 (fun _ => 0) 0 [] := rfl
  rw [hstep, fillUp]
  rfl

/-- C10: with `question_count ≥ 1`, the allocator raises on an empty topic
list (division by zero in the per-topic split) and on an empty produced
pool (`random.choice` of an empty list); with a non-empty topic list and a
non-empty produced pool, both error branches are unreachable and a result
is returned. -/
theorem diagnostic_allocator_totality (topics : List String)
    (dist : List (String × Int)) (qc : Int) (gen : Nat → GenRes)
    (pick : Nat → Nat) (hqc : 1 ≤ qc) :
    (topics = [] →
      generateDiagnosticQuestions topics dist qc gen pick = none) ∧
    (topics ≠ [] → diagPool topics dist qc gen = [] →
      generateDiagnosticQuestions topics dist qc gen pick = none) ∧
    (topics ≠ [] → diagPool topics dist qc gen ≠ [] →
      (generateDiagnosticQuestions topics dist qc gen pick).isSome) := by
  refine ⟨?_, ?_, ?_⟩
  · intro he
    subst he
    unfold generateDiagnosticQuestions
    rw [if_pos ⟨rfl, perDifficultyCounts_ne_nil dist qc hqc⟩]
  · intro hne hpool
    unfold generateDiagnosticQuestions
    rw [if_neg (fun hc => hne (List.length_eq_zero.mp hc.1))]
    rw [hpool]
    simp only [List.length_nil, Nat.cast_zero]
    rw [if_neg (by omega), if_pos (by omega)]
    rw [fillUp]
    simp only [List.length_nil, Nat.cast_zero, List.get?]
    rw [if_pos (by omega)]
  · intro _ hpool
    obtain ⟨qs, hqs, _⟩ := generateDiagnostic_some_of_pool_nonempty topics
      dist qc gen pick hqc hpool
    rw [hqs]
    rfl

/-- Witness for C10 at a concrete topic list, distribution and pool. -/
theorem diagnostic_allocator_totality_witness :
    (1 : Int) ≤ 1 ∧
    ((["t"] : List String) ≠ [] → diagPool ["t"] [] 1
        (fun _ => GenRes.unparsable) ≠ [] →
      (generateDiagnosticQuestions ["t"] [] 1 (fun _ => GenRes.unparsable)
        (fun _ => 0)).isSome) :=
  ⟨by norm_num,
    (diagnostic_allocator_totality ["t"] [] 1 (fun _ => GenRes.unparsable)
      (fun _ => 0) (by norm_num)).2.2⟩

/-! ## Claim C5: diagnostic analysis aggregates -/

theorem specTotal_nil (t : String) : specTotal [] t = 0 := rfl

theorem specTotal_cons (q : DiagQuestion) (qs : List DiagQuestion)
    (t : String) : specTotal (q :: qs) t =
      specTotal qs t + (if topicOfQuestion q = t then 1 else 0) := by
  simp [specTotal, List.countP_cons]

theorem specCorrect_cons (q : DiagQuestion) (qs : List DiagQuestion)
    (answers : List DiagAnswer) (t : String) :
    specCorrect (q :: qs) answers t = specCorrect qs answers t +
      (if topicOfQuestion q = t ∧ questionIsCorrect answers q then 1
       else 0) := by
  simp only [specCorrect, List.countP_cons, Bool.and_eq_true, beq_iff_eq]

theorem specQuestions_cons (q : DiagQuestion) (qs : List DiagQuestion)
    (t : String) : specQuestions (q :: qs) t =
      (if topicOfQuestion q = t then [q] else []) ++ specQuestions qs t := by
  by_cases h : topicOfQuestion q = t <;> simp [specQuestions, h]

theorem topicResults_fold_get (answers : List DiagAnswer) (t : String) :
    ∀ (qs : List DiagQuestion) (acc : List (String × TopicTally)),
    dictGet (qs.foldl (groupStep answers) acc) t =
      tallyExt (dictGet acc t) (specCorrect qs answers t) (specTotal qs t)
        (specQuestions qs t) := by
  intro qs
  induction qs with
  | nil =>
    intro acc
    match h : dictGet acc t with
    | some tl =>
      simp [tallyExt, specCorrect, specTotal, specQuestions]
    | none =>
      simp [tallyExt, specCorrect, specTotal, specQuestions]
  | cons q qs ih =>
    intro acc
    rw [List.foldl_cons, ih (groupStep answers acc q)]
    rw [specTotal_cons, specCorrect_cons, specQuestions_cons]
    by_cases ht : topicOfQuestion q = t
    · have hstep : dictGet (groupStep answers acc q) t =
          some ⟨((dictGet acc t).getD emptyTally).correct +
              (if questionIsCorrect answers q then 1 else 0),
            ((dictGet acc t).getD emptyTally).total + 1,
            ((dictGet acc t).getD emptyTally).questions ++ [q]⟩ := by
        unfold groupStep
        rw [ht, dictGet_dictSet_self]
      rw [hstep, if_pos ht, if_pos ht]
      match hacc : dictGet acc t with
      | some tl =>
        by_cases hc : questionIsCorrect answers q <;>
          simp [tallyExt, hacc, hc, ht, List.append_assoc] <;>
          omega
      | none =>
        by_cases hc : questionIsCorrect answers q <;>
          simp [tallyExt, hacc, hc, ht, emptyTally] <;>
          omega
    · have hstep : dictGet (groupStep answers acc q) t = dictGet acc t := by
        unfold groupStep
        exact dictGet_dictSet_ne _ _ _ _ ht
      rw [hstep, if_neg ht, if_neg (by simp [ht]), if_neg ht]
      simp

theorem nodupKeys_topicResults (answers : List DiagAnswer) :
    ∀ (qs : List DiagQuestion) (acc : List (String × TopicTally)),
    nodupKeys acc → nodupKeys (qs.foldl (groupStep answers) acc) := by
  intro qs
  induction qs with
  | nil => intro acc h; exact h
  | cons q qs ih =>
    intro acc h
    rw [List.foldl_cons]
    exact ih _ (nodupKeys_dictSet _ _ _ h)

theorem sumBy_dictSet_some {α : Type} (f : α → Nat) (l : List (String × α))
    (k : String) (v w : α) (h : dictGet l k = some w) :
    ((dictSet l k v).map (fun kv => f kv.2)).sum + f w =
      (l.map (fun kv => f kv.2)).sum + f v := by
  induction l with
  | nil => simp [dictGet] at h
  | cons kv rest ih =>
    by_cases hh : kv.1 = k
    · simp [dictGet, hh] at h
      simp [dictSet, hh, h]
      omega
    · simp [dictGet, hh] at h
      simp only [dictSet, if_neg hh, List.map_cons, List.sum_cons]
      have := ih h
      omega

theorem sumBy_dictSet_none {α : Type} (f : α → Nat) (l : List (String × α))
    (k : String) (v : α) (h : dictGet l k = none) :
    ((dictSet l k v).map (fun kv => f kv.2)).sum =
      (l.map (fun kv => f kv.2)).sum + f v := by
  rw [dictSet_of_not_mem _ _ _ (not_mem_keys_of_dictGet_eq_none _ _ h)]
  simp

theorem topicResults_fold_sums (answers : List DiagAnswer) :
    ∀ (qs : List DiagQuestion) (acc : List (String × TopicTally)),
    ((qs.foldl (groupStep answers) acc).map (fun kv => kv.2.total)).sum =
      (acc.map (fun kv => kv.2.total)).sum + qs.length ∧
    ((qs.foldl (groupStep answers) acc).map (fun kv => kv.2.correct)).sum =
      (acc.map (fun kv => kv.2.correct)).sum +
        qs.countP (questionIsCorrect answers) := by
  intro qs
  induction qs with
  | nil => intro acc; simp
  | cons q qs ih =>
    intro acc
    rw [List.foldl_cons]
    obtain ⟨iht, ihc⟩ := ih (groupStep answers acc q)
    rw [iht, ihc]
    have hcnt : List.countP (questionIsCorrect answers) (q :: qs) =
        List.countP (questionIsCorrect answers) qs +
          (if questionIsCorrect answers q then 1 else 0) := by
      simp [List.countP_cons]
    rw [hcnt]
    have hstep : groupStep answers acc q = dictSet acc (topicOfQuestion q)
        ⟨((dictGet acc (topicOfQuestion q)).getD emptyTally).correct +
            (if questionIsCorrect answers q then 1 else 0),
          ((dictGet acc (topicOfQuestion q)).getD emptyTally).total + 1,
          ((dictGet acc (topicOfQuestion q)).getD emptyTally).questions ++
            [q]⟩ := rfl
    match hacc : dictGet acc (topicOfQuestion q) with
    | some tl =>
      rw [hacc] at hstep
      simp only [Option.getD_some] at hstep
      have hsumT := sumBy_dictSet_some (fun tl2 => tl2.total) acc
        (topicOfQuestion q)
        ⟨tl.correct + (if questionIsCorrect answers q then 1 else 0),
          tl.total + 1, tl.questions ++ [q]⟩ tl hacc
      have hsumC := sumBy_dictSet_some (fun tl2 => tl2.correct) acc
        (topicOfQuestion q)
        ⟨tl.correct + (if questionIsCorrect answers q then 1 else 0),
          tl.total + 1, tl.questions ++ [q]⟩ tl hacc
      rw [hstep]
      simp only at hsumT hsumC
      refine ⟨?_, ?_⟩
      · simp only [List.length_cons]
        omega
      · omega
    | none =>
      rw [hacc] at hstep
      simp only [Option.getD_none] at hstep
      have hsumT := sumBy_dictSet_none (fun tl2 => tl2.total) acc
        (topicOfQuestion q)
        ⟨emptyTally.correct + (if questionIsCorrect answers q then 1 else 0),
          emptyTally.total + 1, emptyTally.questions ++ [q]⟩ hacc
      have hsumC := sumBy_dictSet_none (fun tl2 => tl2.correct) acc
        (topicOfQuestion q)
        ⟨emptyTally.correct + (if questionIsCorrect answers q then 1 else 0),
          emptyTally.total + 1, emptyTally.questions ++ [q]⟩ hacc
      rw [hstep]
      simp only [emptyTally] at hsumT hsumC ⊢
      refine ⟨?_, ?_⟩
      · simp only [List.length_cons]
        omega
      · omega

theorem topicScores_fold_get (t : String) :
    ∀ (results : List (String × TopicTally)) (acc : List (String × Nat)),
    nodupKeys results →
    dictGet (results.foldl (fun acc2 kv =>
        if 0 < kv.2.total then
          dictSet acc2 kv.1 (pyRound (100 * kv.2.correct) kv.2.total)
        else acc2) acc) t =
      (match dictGet results t with
       | some w =>
         if 0 < w.total then some (pyRound (100 * w.correct) w.total)
         else dictGet acc t
       | none => dictGet acc t) := by
  intro results
  induction results with
  | nil => intro acc _; rfl
  | cons kv rest ih =>
    intro acc hnd
    unfold nodupKeys dictKeys at hnd
    simp only [List.map_cons, List.nodup_cons] at hnd
    rw [List.foldl_cons]
    by_cases hk : kv.1 = t
    · subst hk
      have hrest : dictGet rest kv.1 = none :=
        dictGet_eq_none_of_not_mem _ _ (by simpa [dictKeys] using hnd.1)
      rw [ih _ hnd.2, hrest]
      have hhead : dictGet (kv :: rest) kv.1 = some kv.2 := by
        simp [dictGet]
      rw [hhead]
      by_cases hpos : 0 < kv.2.total
      · simp only [if_pos hpos]
        exact dictGet_dictSet_self _ _ _
      · simp only [if_neg hpos]
    · have hhead : dictGet (kv :: rest) t = dictGet rest t := by
        simp [dictGet, hk]
      have hacc2 : dictGet
          (if 0 < kv.2.total then
            dictSet acc kv.1 (pyRound (100 * kv.2.correct) kv.2.total)
          else acc) t = dictGet acc t := by
        by_cases hpos : 0 < kv.2.total
        · simp only [if_pos hpos]
          exact dictGet_dictSet_ne _ _ _ _ hk
        · simp only [if_neg hpos]
      rw [ih _ hnd.2, hhead, hacc2]

theorem topicScoresOf_get (results : List (String × TopicTally))
    (t : String) (hnd : nodupKeys results) :
    dictGet (topicScoresOf results) t =
      (dictGet results t).bind (fun w =>
        if 0 < w.total then some (pyRound (100 * w.correct) w.total)
        else none) := by
  have h := topicScores_fold_get t results [] hnd
  rw [show topicScoresOf results = results.foldl (fun acc2 kv =>
    if 0 < kv.2.total then
      dictSet acc2 kv.1 (pyRound (100 * kv.2.correct) kv.2.total)
    else acc2) [] from rfl]
  rw [h]
  match hr : dictGet results t with
  | some w =>
    by_cases hpos : 0 < w.total <;> simp [hpos, dictGet]
  | none => rfl

theorem topicScores_fold_nodup :
    ∀ (results : List (String × TopicTally)) (acc : List (String × Nat)),
    nodupKeys acc →
    nodupKeys (results.foldl (fun acc2 kv =>
      if 0 < kv.2.total then
        dictSet acc2 kv.1 (pyRound (100 * kv.2.correct) kv.2.total)
      else acc2) acc) := by
  intro results
  induction results with
  | nil => intro acc h; exact h
  | cons kv rest ih =>
    intro acc h
    rw [List.foldl_cons]
    apply ih
    by_cases hpos : 0 < kv.2.total
    · simp only [if_pos hpos]
      exact nodupKeys_dictSet _ _ _ h
    · simp only [if_neg hpos]
      exact h

theorem nodupKeys_topicScoresOf (results : List (String × TopicTally)) :
    nodupKeys (topicScoresOf results) :=
  topicScores_fold_nodup results [] (by simp [nodupKeys, dictKeys])

theorem classify_fold_append (scores : List (String × Nat)) :
    ∀ (accS accW : List String),
    scores.foldl classifyStep (accS, accW) =
      (accS ++ (classifyTopics scores).1,
       accW ++ (classifyTopics scores).2) := by
  induction scores with
  | nil => intro accS accW; simp [classifyTopics]
  | cons kv rest ih =>
    intro accS accW
    have hstep : ∀ aS aW, classifyStep (aS, aW) kv =
        (aS ++ (classifyStep ([], []) kv).1,
         aW ++ (classifyStep ([], []) kv).2) := by
      intro aS aW
      unfold classifyStep
      by_cases h70 : 70 ≤ kv.2
      · simp [h70]
      · by_cases h40 : kv.2 ≤ 40 <;> simp [h70, h40]
    rw [List.foldl_cons, hstep accS accW]
    rw [show classifyTopics (kv :: rest) =
      rest.foldl classifyStep (classifyStep ([], []) kv) from rfl]
    rcases hX : classifyStep ([], []) kv with ⟨X, Y⟩
    rw [show rest.foldl classifyStep (X, Y) =
      rest.foldl classifyStep ((X : List String), (Y : List String)) from
      rfl]
    rw [ih (accS ++ X) (accW ++ Y), ih X Y]
    simp [List.append_assoc]

theorem classifyTopics_mem (scores : List (String × Nat)) (t : String) :
    (t ∈ (classifyTopics scores).1 ↔ ∃ s, (t, s) ∈ scores ∧ 70 ≤ s) ∧
    (t ∈ (classifyTopics scores).2 ↔ ∃ s, (t, s) ∈ scores ∧ s ≤ 40) := by
  induction scores with
  | nil => simp [classifyTopics]
  | cons kv rest ih =>
    have hdef : classifyTopics (kv :: rest) =
        ((classifyStep ([], []) kv).1 ++ (classifyTopics rest).1,
         (classifyStep ([], []) kv).2 ++ (classifyTopics rest).2) := by
      rw [show classifyTopics (kv :: rest) =
        rest.foldl classifyStep (classifyStep ([], []) kv) from rfl]
      rcases hX : classifyStep ([], []) kv with ⟨X, Y⟩
      exact classify_fold_append rest X Y
    rw [hdef]
    constructor
    · simp only [List.mem_append]
      rw [ih.1]
      constructor
      · rintro (hL | ⟨s, hmem, hs⟩)
        · unfold classifyStep at hL
          by_cases h70 : 70 ≤ kv.2
          · simp [h70] at hL
            subst hL
            exact ⟨kv.2, List.mem_cons_self kv rest, h70⟩
          · by_cases h40 : kv.2 ≤ 40 <;> simp [h70, h40] at hL
        · exact ⟨s, List.mem_cons_of_mem _ hmem, hs⟩
      · rintro ⟨s, hmem, hs⟩
        rcases List.mem_cons.mp hmem with heq | hmem2
        · left
          unfold classifyStep
          have h1 : kv.1 = t := by rw [← heq]
          have h2 : kv.2 = s := by rw [← heq]
          simp [h2, hs, h1]
        · exact Or.inr ⟨s, hmem2, hs⟩
    · simp only [List.mem_append]
      rw [ih.2]
      constructor
      · rintro (hL | ⟨s, hmem, hs⟩)
        · unfold classifyStep at hL
          by_cases h70 : 70 ≤ kv.2
          · simp [h70] at hL
          · by_cases h40 : kv.2 ≤ 40
            · simp [h70, h40] at hL
              subst hL
              exact ⟨kv.2, List.mem_cons_self kv rest, h40⟩
            · simp [h70, h40] at hL
        · exact ⟨s, List.mem_cons_of_mem _ hmem, hs⟩
      · rintro ⟨s, hmem, hs⟩
        rcases List.mem_cons.mp hmem with heq | hmem2
        · left
          unfold classifyStep
          have h1 : kv.1 = t := by rw [← heq]
          have h2 : kv.2 = s := by rw [← heq]
          have h70s : ¬70 ≤ s := by omega
          simp [h2, hs, h1, h70s]
        · exact Or.inr ⟨s, hmem2, hs⟩

/-- C5 (amended): `analyze_diagnostic_results` groups questions by
`topicId` (default "unknown"); a question counts correct iff the FIRST
answer with a matching `questionId` has `isCorrect` true — not "some
answer", which differs when several answers share a `questionId`; each
topic's score is `round(100*correct/total)`; a topic is a strength iff
its score is ≥ 70 and a weakness iff ≤ 40 (strictly between is neither);
the overall score is `round(100*sum(correct)/sum(total))` or 0 with no
questions; and the returned strengths/weaknesses have as members exactly
the union of the score-derived topics with the caller-declared
strong/weak topics. -/
theorem analyze_diagnostic_aggregates (questions : List DiagQuestion)
    (answers : List DiagAnswer) (weakTopics strongTopics : List String)
    (t : String) :
    dictGet (analyzeDiagnosticResults questions answers weakTopics
        strongTopics).topicScores t =
      (if specTotal questions t = 0 then none
       else some (pyRound (100 * specCorrect questions answers t)
         (specTotal questions t))) ∧
    (t ∈ (analyzeDiagnosticResults questions answers weakTopics
        strongTopics).strengths ↔
      ((∃ s, dictGet (analyzeDiagnosticResults questions answers weakTopics
          strongTopics).topicScores t = some s ∧ 70 ≤ s) ∨
        t ∈ strongTopics)) ∧
    (t ∈ (analyzeDiagnosticResults questions answers weakTopics
        strongTopics).weaknesses ↔
      ((∃ s, dictGet (analyzeDiagnosticResults questions answers weakTopics
          strongTopics).topicScores t = some s ∧ s ≤ 40) ∨
        t ∈ weakTopics)) ∧
    (analyzeDiagnosticResults questions answers weakTopics
        strongTopics).overallScore =
      (if questions.length = 0 then 0
       else pyRound (100 * questions.countP (questionIsCorrect answers))
         questions.length) := by
  have hndres : nodupKeys (topicResults questions answers) :=
    nodupKeys_topicResults answers questions []
      (by simp [nodupKeys, dictKeys])
  have hres : dictGet (topicResults questions answers) t =
      tallyExt none (specCorrect questions answers t)
        (specTotal questions t) (specQuestions questions t) :=
    topicResults_fold_get answers t questions []
  have hAscore : dictGet (analyzeDiagnosticResults questions answers
      weakTopics strongTopics).topicScores t =
      (if specTotal questions t = 0 then none
       else some (pyRound (100 * specCorrect questions answers t)
         (specTotal questions t))) := by
    show dictGet (topicScoresOf (topicResults questions answers)) t = _
    rw [topicScoresOf_get _ _ hndres, hres]
    by_cases h0 : specTotal questions t = 0
    · simp [tallyExt, h0]
    · have hpos : 0 < specTotal questions t := Nat.pos_of_ne_zero h0
      simp [tallyExt, h0, hpos]
  have hlink : ∀ s : Nat,
      (t, s) ∈ topicScoresOf (topicResults questions answers) ↔
      dictGet (topicScoresOf (topicResults questions answers)) t =
        some s := by
    intro s
    constructor
    · exact dictGet_eq_some_of_mem _ _ _ (nodupKeys_topicScoresOf _)
    · exact mem_of_dictGet_eq_some _ _ _
  refine ⟨hAscore, ?_, ?_, ?_⟩
  · show t ∈ pySetList ((classifyTopics (topicScoresOf
        (topicResults questions answers))).1 ++ strongTopics) ↔ _
    rw [pySetList, List.mem_dedup, List.mem_append,
      (classifyTopics_mem _ t).1]
    constructor
    · rintro (⟨s, hmem, hs⟩ | hdecl)
      · exact Or.inl ⟨s, (hlink s).mp hmem, hs⟩
      · exact Or.inr hdecl
    · rintro (⟨s, hget, hs⟩ | hdecl)
      · exact Or.inl ⟨s, (hlink s).mpr hget, hs⟩
      · exact Or.inr hdecl
  · show t ∈ pySetList ((classifyTopics (topicScoresOf
        (topicResults questions answers))).2 ++ weakTopics) ↔ _
    rw [pySetList, List.mem_dedup, List.mem_append,
      (classifyTopics_mem _ t).2]
    constructor
    · rintro (⟨s, hmem, hs⟩ | hdecl)
      · exact Or.inl ⟨s, (hlink s).mp hmem, hs⟩
      · exact Or.inr hdecl
    · rintro (⟨s, hget, hs⟩ | hdecl)
      · exact Or.inl ⟨s, (hlink s).mpr hget, hs⟩
      · exact Or.inr hdecl
  · show overallScoreOf (topicResults questions answers) = _
    obtain ⟨hT, hC⟩ := topicResults_fold_sums answers questions []
    simp only [overallScoreOf, topicResults]
    rw [hT, hC]
    simp only [List.map_nil, List.sum_nil, Nat.zero_add]
    by_cases hlen : questions.length = 0
    · simp [hlen]
    · rw [if_pos (Nat.pos_of_ne_zero hlen), if_neg hlen]

/-- Counterexample to C5 as frozen: one question with id q1 under topic
"t"; two answers share questionId q1, the first incorrect, the second
correct.  Some answer matches with `isCorrect` true, so the frozen claim
predicts score `round(100*1/1) = 100` and a strength, but the source
consults only the first matching answer: the actual score is 0 and "t" is
classified a weakness, not a strength. -/
theorem analyze_diagnostic_first_match_counterexample :
    (∃ a ∈ [DiagAnswer.mk (some "q1") false, DiagAnswer.mk (some "q1") true],
      a.questionId = some "q1" ∧ a.isCorrect = true) ∧
    dictGet (analyzeDiagnosticResults
        [DiagQuestion.mk (some "q1") (some "t")]
        [DiagAnswer.mk (some "q1") false, DiagAnswer.mk (some "q1") true]
        [] []).topicScores "t" = some 0 ∧
    "t" ∈ (analyzeDiagnosticResults
        [DiagQuestion.mk (some "q1") (some "t")]
        [DiagAnswer.mk (some "q1") false, DiagAnswer.mk (some "q1") true]
        [] []).weaknesses ∧
    "t" ∉ (analyzeDiagnosticResults
        [DiagQuestion.mk (some "q1") (some "t")]
        [DiagAnswer.mk (some "q1") false, DiagAnswer.mk (some "q1") true]
        [] []).strengths ∧
    pyRound (100 * 1) 1 = 100 :=
  ⟨by decide, by decide, by decide, by decide, by decide⟩

/-- Witness for C3: two topics, one easy question; topic 0 receives
quota 2 and topic 1 receives quota 1 is the formula value at i = 0. -/
theorem diagnostic_per_topic_quota_witness :
    (0 : Nat) < (["netw", "osys"] : List String).length ∧
    (["netw", "osys"] : List String).Nodup ∧
    nodupKeys [("easy", (1 : Int))] ∧
    (("easy", (1 : Int)) ∈ [("easy", (1 : Int))]) ∧
    (dictGet (questionsPerTopic ["netw", "osys"] [("easy", (1 : Int))])
        ((["netw", "osys"] : List String).get ⟨0, by decide⟩)).bind
        (fun inner => dictGet inner "easy") =
      some (topicQuota 1 (["netw", "osys"] : List String).length 0) :=
  ⟨by decide, by decide, by decide, by decide,
    (diagnostic_per_topic_quota ["netw", "osys"] [("easy", (1 : Int))]
      "easy" 1 0 (by decide) (by decide) (by decide) (by decide)).1⟩

end Dcio
